import Mathlib

/-!
# ConnectUs: the contact sidebar

A shallow embedding of `frontend/src/components/Sidebar.jsx`: the derivation of
`chatPartnerIds`, the filter effect that computes `searchResults`, the
`onlineUserCount` badge and the empty-state message.

JavaScript values that may be `undefined` are `Option`s, an array is a `List`,
and an expression that can throw a `TypeError` (a property read or a method call
on `undefined`) returns `Except JsError`. Identifiers and names are strings.

`frontend/src/components/NoChatSelected.jsx` is static markup and has no logic
to embed.
-/

namespace Sidebar

/-! ## Data model -/

/-- The only exception the component can raise: reading a property of, or
calling a method on, `undefined`. -/
inductive JsError where
  | typeError
  deriving DecidableEq, Repr

deriving instance DecidableEq for Except

/-- A user record as read by the sidebar (`user._id`, `user.fullName`,
`user.profilePic`). -/
structure User where
  _id : String
  fullName : Option String
  profilePic : Option String
  deriving DecidableEq, Repr

/-- A conversation as read by the sidebar (`conv.participants`). -/
structure Conversation where
  participants : Option (List String)
  deriving DecidableEq, Repr

/-! ## The JavaScript built-ins the component calls -/

/-- `Boolean(s)` for a string: every string but the empty one is truthy. -/
def truthy (s : String) : Bool :=
  s != ""

/-- The characters `String.prototype.trim` strips: ECMAScript `WhiteSpace`
(TAB, VT, FF, ZWNBSP and the space separators) and `LineTerminator`
(LF, CR, LS, PS). -/
def isWhiteSpace (c : Char) : Bool :=
  c.toNat ∈ [0x9, 0xA, 0xB, 0xC, 0xD, 0x20, 0xA0, 0x1680, 0x2028, 0x2029,
      0x202F, 0x205F, 0x3000, 0xFEFF]
    || (0x2000 ≤ c.toNat && c.toNat ≤ 0x200A)

/-- `String.prototype.trim`: white space removed from both ends. -/
def trim (s : String) : String :=
  String.mk ((s.data.dropWhile isWhiteSpace).reverse.dropWhile isWhiteSpace).reverse

/-- `String.prototype.includes`: `t` occurs in `s` as a contiguous run. -/
def includes (s t : String) : Bool :=
  s.data.tails.any (fun rest => t.data.isPrefixOf rest)

/-- `Set.prototype.add` on the insertion-ordered elements of a set: a no-op on a
present element, otherwise the element goes last. -/
def setAdd (elems : List String) (x : String) : List String :=
  if elems.contains x then elems else elems ++ [x]

/-- `new Set(xs)` spread back into an array: the elements of `xs` are added in
order, so each stays at its first occurrence. -/
def newSet (xs : List String) : List String :=
  xs.foldl setAdd []

/-- `Array.prototype.map` with a callback that may throw: the callback runs on
the elements in order and the first exception aborts the call. -/
def mapE {α β : Type} (f : α → Except JsError β) : List α → Except JsError (List β)
  | [] => .ok []
  | a :: as =>
    match f a with
    | .error e => .error e
    | .ok b =>
      match mapE f as with
      | .error e => .error e
      | .ok bs => .ok (b :: bs)

/-- `Array.prototype.filter` with a callback that may throw: the callback runs on
the elements in order and the first exception aborts the call. -/
def filterE {α : Type} (p : α → Except JsError Bool) : List α → Except JsError (List α)
  | [] => .ok []
  | a :: as =>
    match p a with
    | .error e => .error e
    | .ok keep =>
      match filterE p as with
      | .error e => .error e
      | .ok rest => .ok (if keep then a :: rest else rest)

/-- `onlineUsers.includes(id)`: a `TypeError` when `onlineUsers` is `undefined`. -/
def onlineIncludes (onlineUsers : Option (List String)) (id : String) : Except JsError Bool :=
  match onlineUsers with
  | none => .error .typeError
  | some online => .ok (online.contains id)

/-- The ASCII fragment of `String.prototype.toLowerCase` (`A`..`Z` to `a`..`z`),
used to evaluate the component on concrete ASCII inputs. The component itself is
embedded over an arbitrary lower-casing function. -/
def asciiToLowerCase (s : String) : String :=
  String.mk (s.data.map Char.toLower)

/-! ## Sidebar.jsx, lines 16-21: `chatPartnerIds` -/

/-- The callback of `conversations.map`:
`conv.participants.find(id => id !== currentUser?._id)`. It throws when
`conv.participants` is `undefined`; `find` returns `undefined` (`none`) when no
participant differs from `currentUser?._id`. -/
def findPartner (currentUser : Option User) (conv : Conversation) :
    Except JsError (Option String) :=
  match conv.participants with
  | none => .error .typeError
  | some participants =>
    .ok (participants.find? (fun id => some id != currentUser.map User._id))

/-- The unique user IDs the current user has chatted with:
`conversations ? [...new Set(conversations.map(findPartner).filter(Boolean))] : []`. -/
def chatPartnerIds (conversations : Option (List Conversation)) (currentUser : Option User) :
    Except JsError (List String) :=
  match conversations with
  | none => .ok []
  | some convs =>
    match mapE (findPartner currentUser) convs with
    | .error e => .error e
    | .ok found => .ok (newSet (found.filterMap (fun r => r.filter truthy)))

/-! ## Sidebar.jsx, lines 27-53: the filter effect -/

/-- Lines 31-33: the population selected by the show-all toggle,
`showAllUsers ? users : users.filter(user => chatPartnerIds.includes(user._id))`. -/
def basePopulation (users : List User) (chatPartnerIds : List String) (showAllUsers : Bool) :
    List User :=
  if showAllUsers then users else users.filter (fun user => chatPartnerIds.contains user._id)

/-- Lines 43-49: the callback of the search branch. `user.fullName.toLowerCase()`
throws when `fullName` is `undefined`; `&&` evaluates `onlineUsers.includes` only
when `matchesSearch` is true. -/
def searchCallback (toLowerCase : String → String) (searchQuery : String) (showOnlineOnly : Bool)
    (onlineUsers : Option (List String)) (user : User) : Except JsError Bool :=
  match user.fullName with
  | none => .error .typeError
  | some fullName =>
    let matchesSearch := includes (toLowerCase fullName) (toLowerCase searchQuery)
    if showOnlineOnly then
      if matchesSearch then onlineIncludes onlineUsers user._id else .ok false
    else
      .ok matchesSearch

/-- The filter effect. It returns the value of the `searchResults` state after the
effect has run: when `users` is absent the effect returns early and the state keeps
its previous value. -/
def filterEffect (toLowerCase : String → String) (users : Option (List User))
    (chatPartnerIds : List String) (showAllUsers : Bool) (searchQuery : String)
    (showOnlineOnly : Bool) (onlineUsers : Option (List String)) (searchResults : List User) :
    Except JsError (List User) :=
  match users with
  | none => .ok searchResults
  | some users =>
    let filteredUsers := basePopulation users chatPartnerIds showAllUsers
    if trim searchQuery = "" then
      if showOnlineOnly then
        filterE (fun user => onlineIncludes onlineUsers user._id) filteredUsers
      else
        .ok filteredUsers
    else
      filterE (searchCallback toLowerCase searchQuery showOnlineOnly onlineUsers) filteredUsers

/-- The render computes `chatPartnerIds` and the effect then filters with it. -/
def contactFilter (toLowerCase : String → String) (users : Option (List User))
    (conversations : Option (List Conversation)) (currentUser : Option User)
    (showAllUsers : Bool) (searchQuery : String) (showOnlineOnly : Bool)
    (onlineUsers : Option (List String)) (searchResults : List User) :
    Except JsError (List User) :=
  match chatPartnerIds conversations currentUser with
  | .error e => .error e
  | .ok ids =>
    filterEffect toLowerCase users ids showAllUsers searchQuery showOnlineOnly onlineUsers
      searchResults

/-! ## Sidebar.jsx, lines 61 and 112-116: the online badge -/

/-- Line 61: `onlineUsers.length - 1`. -/
def onlineUserCount (onlineUsers : Option (List String)) : Except JsError Int :=
  match onlineUsers with
  | none => .error .typeError
  | some online => .ok ((online.length : Int) - 1)

/-- Line 112: the badge is rendered when `onlineUserCount > 0`. -/
def showOnlineBadge (onlineUserCount : Int) : Bool :=
  decide (onlineUserCount > 0)

/-! ## Sidebar.jsx, lines 147-213: the list pane -/

/-- Lines 197-203: the message of the empty state. -/
def emptyStateMessage (searchQuery : String) (showOnlineOnly showAllUsers : Bool) : String :=
  if truthy searchQuery then "No users found"
  else if showOnlineOnly then "No online users"
  else if showAllUsers then "No users available"
  else "No chat history found"

/-- What the list pane shows. -/
inductive ListPane where
  | contacts (users : List User)
  | message (text : String)
  deriving DecidableEq, Repr

/-- Line 147: `searchResults.length > 0 ? contacts : message`. -/
def listPane (searchResults : List User) (searchQuery : String)
    (showOnlineOnly showAllUsers : Bool) : ListPane :=
  if searchResults.length > 0 then .contacts searchResults
  else .message (emptyStateMessage searchQuery showOnlineOnly showAllUsers)

/-! ## Vocabulary of the statements -/

/-- The substring test of line 44 as a predicate on users; a user without a name
matches nothing. -/
def matchesSearch (toLowerCase : String → String) (searchQuery : String) (user : User) : Bool :=
  match user.fullName with
  | none => false
  | some fullName => includes (toLowerCase fullName) (toLowerCase searchQuery)

/-- The identifier `id` is a participant of some conversation of `convs` and
differs from `self`. -/
def IsNonSelfParticipant (convs : List Conversation) (self id : String) : Prop :=
  ∃ conv ∈ convs, id ∈ conv.participants.getD [] ∧ id ≠ self

instance (convs : List Conversation) (self id : String) :
    Decidable (IsNonSelfParticipant convs self id) := by
  unfold IsNonSelfParticipant
  infer_instance

/-- Every user of the list has a `fullName`. -/
def AllNamed (users : List User) : Prop :=
  ∀ u ∈ users, u.fullName ≠ none

instance (users : List User) : Decidable (AllNamed users) := by
  unfold AllNamed
  infer_instance

/-- Every conversation of the list has a `participants` array. -/
def AllHaveParticipants (convs : List Conversation) : Prop :=
  ∀ conv ∈ convs, conv.participants ≠ none

instance (convs : List Conversation) : Decidable (AllHaveParticipants convs) := by
  unfold AllHaveParticipants
  infer_instance

/-! ## Concrete data for the examples -/

def alice : User := ⟨"a", some "Alice", none⟩

def bob : User := ⟨"b", some "Bob", none⟩

def carol : User := ⟨"c", some "Carol", none⟩

/-- Alice's name written in capitals; every other user is left as is. -/
def upperCaseAlice (u : User) : User :=
  if u = alice then ⟨"a", some "ALICE", none⟩ else u

example : chatPartnerIds (some [⟨some ["c", "a"]⟩, ⟨some ["a", "c"]⟩, ⟨some ["c", "b"]⟩])
    (some carol) = .ok ["a", "b"] := by decide

example : contactFilter asciiToLowerCase (some [alice, bob]) (some [⟨some ["c", "a"]⟩])
    (some carol) false "" false (some ["a"]) [] = .ok [alice] := by decide

example : filterEffect asciiToLowerCase (some [alice, bob, carol]) [] true "O" false
    (some ["a"]) [] = .ok [bob, carol] := by decide

/-! ## Lemmas on the built-ins -/

theorem filterE_eq_ok_filter {α : Type} (p : α → Except JsError Bool) (q : α → Bool) :
    ∀ l : List α, (∀ a ∈ l, p a = .ok (q a)) → filterE p l = .ok (l.filter q)
  | [], _ => rfl
  | a :: as, h => by
    have ha : p a = .ok (q a) := h a (List.mem_cons_self a as)
    have ih := filterE_eq_ok_filter p q as (fun b hb => h b (List.mem_cons_of_mem a hb))
    cases hq : q a <;> simp [filterE, ha, ih, hq]

theorem filterE_sublist {α : Type} (p : α → Except JsError Bool) :
    ∀ (l r : List α), filterE p l = .ok r → r.Sublist l
  | [], r, h => by
    simp only [filterE, Except.ok.injEq] at h
    subst h
    exact List.Sublist.refl _
  | a :: as, r, h => by
    simp only [filterE] at h
    cases hpa : p a with
    | error e => simp [hpa] at h
    | ok keep =>
      cases hrest : filterE p as with
      | error e => simp [hpa, hrest] at h
      | ok rest =>
        have ih := filterE_sublist p as rest hrest
        simp only [hpa, hrest, Except.ok.injEq] at h
        subst h
        cases keep
        · simpa using ih.cons a
        · simpa using ih.cons₂ a

theorem filterE_mem {α : Type} (p : α → Except JsError Bool) :
    ∀ (l r : List α), filterE p l = .ok r → ∀ a ∈ r, p a = .ok true
  | [], r, h => by
    simp only [filterE, Except.ok.injEq] at h
    subst h
    intro a ha
    cases ha
  | a :: as, r, h => by
    simp only [filterE] at h
    cases hpa : p a with
    | error e => simp [hpa] at h
    | ok keep =>
      cases hrest : filterE p as with
      | error e => simp [hpa, hrest] at h
      | ok rest =>
        have ih := filterE_mem p as rest hrest
        simp only [hpa, hrest, Except.ok.injEq] at h
        subst h
        intro b hb
        cases keep
        · exact ih b (by simpa using hb)
        · rcases List.mem_cons.mp (by simpa using hb) with hba | hb'
          · rw [hba]; exact hpa
          · exact ih b hb'

theorem filterE_congr {α : Type} (p p' : α → Except JsError Bool) :
    ∀ l : List α, (∀ a ∈ l, p a = p' a) → filterE p l = filterE p' l
  | [], _ => rfl
  | a :: as, h => by
    have ha : p a = p' a := h a (List.mem_cons_self a as)
    have ih := filterE_congr p p' as (fun b hb => h b (List.mem_cons_of_mem a hb))
    simp only [filterE, ha, ih]

theorem filterE_map {α : Type} (f : α → α) (p : α → Except JsError Bool) :
    ∀ l : List α, filterE p (l.map f) = (filterE (fun a => p (f a)) l).map (List.map f)
  | [] => rfl
  | a :: as => by
    have ih := filterE_map f p as
    simp only [List.map_cons, filterE, ih]
    cases p (f a) with
    | error e => rfl
    | ok keep =>
      cases filterE (fun a => p (f a)) as with
      | error e => rfl
      | ok rest => cases keep <;> rfl

theorem mapE_ok_of_forall {α β : Type} (f : α → Except JsError β) :
    ∀ l : List α, (∀ a ∈ l, ∃ b, f a = .ok b) → ∃ bs, mapE f l = .ok bs
  | [], _ => ⟨[], rfl⟩
  | a :: as, h => by
    obtain ⟨b, hb⟩ := h a (List.mem_cons_self a as)
    obtain ⟨bs, hbs⟩ := mapE_ok_of_forall f as (fun c hc => h c (List.mem_cons_of_mem a hc))
    exact ⟨b :: bs, by simp [mapE, hb, hbs]⟩

theorem mapE_mem {α β : Type} (f : α → Except JsError β) :
    ∀ (l : List α) (bs : List β), mapE f l = .ok bs → ∀ b, b ∈ bs ↔ ∃ a ∈ l, f a = .ok b
  | [], bs, h => by
    simp only [mapE, Except.ok.injEq] at h
    subst h
    simp
  | a :: as, bs, h => by
    simp only [mapE] at h
    cases hfa : f a with
    | error e => simp [hfa] at h
    | ok b0 =>
      cases hrest : mapE f as with
      | error e => simp [hfa, hrest] at h
      | ok rest =>
        have ih := mapE_mem f as rest hrest
        simp only [hfa, hrest, Except.ok.injEq] at h
        subst h
        intro b
        simp only [List.mem_cons, ih b, exists_eq_or_imp, hfa, Except.ok.injEq]
        constructor
        · rintro (h1 | h2)
          · exact Or.inl h1.symm
          · exact Or.inr h2
        · rintro (h1 | h2)
          · exact Or.inl h1.symm
          · exact Or.inr h2

theorem mem_setAdd (elems : List String) (x a : String) :
    a ∈ setAdd elems x ↔ a ∈ elems ∨ a = x := by
  unfold setAdd
  by_cases hx : x ∈ elems
  · have hc : elems.contains x = true := by simpa using hx
    rw [if_pos hc]
    constructor
    · exact Or.inl
    · rintro (h | h)
      · exact h
      · exact h ▸ hx
  · have hc : ¬ elems.contains x = true := by simpa using hx
    rw [if_neg hc]
    simp

theorem nodup_setAdd (elems : List String) (x : String) (h : elems.Nodup) :
    (setAdd elems x).Nodup := by
  unfold setAdd
  by_cases hx : x ∈ elems
  · have hc : elems.contains x = true := by simpa using hx
    rw [if_pos hc]
    exact h
  · have hc : ¬ elems.contains x = true := by simpa using hx
    rw [if_neg hc]
    exact List.Nodup.append h (List.nodup_singleton x) (by simpa using hx)

theorem mem_foldl_setAdd (xs : List String) :
    ∀ (acc : List String) (a : String), a ∈ xs.foldl setAdd acc ↔ a ∈ acc ∨ a ∈ xs := by
  induction xs with
  | nil => intro acc a; simp
  | cons y ys ih =>
    intro acc a
    rw [List.foldl_cons, ih, mem_setAdd, List.mem_cons, or_assoc]

theorem nodup_foldl_setAdd (xs : List String) :
    ∀ acc : List String, acc.Nodup → (xs.foldl setAdd acc).Nodup := by
  induction xs with
  | nil => intro acc h; exact h
  | cons y ys ih =>
    intro acc h
    rw [List.foldl_cons]
    exact ih _ (nodup_setAdd acc y h)

theorem mem_newSet (xs : List String) (x : String) : x ∈ newSet xs ↔ x ∈ xs := by
  simp [newSet, mem_foldl_setAdd]

theorem nodup_newSet (xs : List String) : (newSet xs).Nodup :=
  nodup_foldl_setAdd xs [] List.nodup_nil

/-! ## `chatPartnerIds` -/

theorem chatPartnerIds_isOk (convs : List Conversation) (currentUser : Option User)
    (h : AllHaveParticipants convs) :
    ∃ ids, chatPartnerIds (some convs) currentUser = .ok ids := by
  have hall : ∀ conv ∈ convs, ∃ r, findPartner currentUser conv = .ok r := by
    intro conv hconv
    cases hp : conv.participants with
    | none => exact absurd hp (h conv hconv)
    | some ps => exact ⟨_, by simp only [findPartner, hp]; rfl⟩
  obtain ⟨found, hfound⟩ := mapE_ok_of_forall (findPartner currentUser) convs hall
  exact ⟨_, by simp only [chatPartnerIds, hfound]; rfl⟩

theorem mem_chatPartnerIds (convs : List Conversation) (currentUser : Option User)
    (ids : List String) (h : chatPartnerIds (some convs) currentUser = .ok ids) (x : String) :
    x ∈ ids ↔ ∃ conv ∈ convs, ∃ ps, conv.participants = some ps ∧
      ps.find? (fun id => some id != currentUser.map User._id) = some x ∧ x ≠ "" := by
  simp only [chatPartnerIds] at h
  cases hfound : mapE (findPartner currentUser) convs with
  | error e => simp [hfound] at h
  | ok found =>
    simp only [hfound, Except.ok.injEq] at h
    subst h
    rw [mem_newSet, List.mem_filterMap]
    constructor
    · rintro ⟨r, hr, hx⟩
      obtain ⟨conv, hconv, hfp⟩ := (mapE_mem _ convs found hfound r).mp hr
      cases hp : conv.participants with
      | none => simp [findPartner, hp] at hfp
      | some ps =>
        simp only [findPartner, hp, Except.ok.injEq] at hfp
        cases r with
        | none => simp at hx
        | some y =>
          by_cases hy : truthy y = true
          · have hxy : y = x := by simpa [Option.filter, hy] using hx
            subst hxy
            exact ⟨conv, hconv, ps, hp, hfp, by simpa [truthy] using hy⟩
          · simp [Option.filter, hy] at hx
    · rintro ⟨conv, hconv, ps, hp, hfind, hx⟩
      refine ⟨some x, (mapE_mem _ convs found hfound (some x)).mpr ⟨conv, hconv, ?_⟩, ?_⟩
      · simp [findPartner, hp, hfind]
      · have : truthy x = true := by simpa [truthy] using hx
        simp [Option.filter, this]

theorem filterEffect_chat_history_only (toLowerCase : String → String) (us : List User)
    (ids : List String) (onlineUsers : Option (List String)) (prev : List User) :
    filterEffect toLowerCase (some us) ids false "" false onlineUsers prev =
      .ok (us.filter (fun user => ids.contains user._id)) := by
  have ht : trim "" = "" := rfl
  simp [filterEffect, basePopulation, ht]

/-- C8: whenever `chatPartnerIds` is computed, for any conversation list and any
current user (present or absent), it has no duplicate, does not contain the current
user's identifier, and each of its elements is a participant of some conversation;
and it is computed whenever every conversation has its `participants`. -/
theorem chatPartnerIds_distinct_non_self (conversations : Option (List Conversation))
    (currentUser : Option User) :
    (∀ ids, chatPartnerIds conversations currentUser = .ok ids →
      ids.Nodup ∧
      (∀ cu, currentUser = some cu → cu._id ∉ ids) ∧
      ∀ id ∈ ids, ∃ convs conv ps, conversations = some convs ∧ conv ∈ convs ∧
        conv.participants = some ps ∧ id ∈ ps) ∧
    ((∀ convs, conversations = some convs → AllHaveParticipants convs) →
      ∃ ids, chatPartnerIds conversations currentUser = .ok ids) := by
  cases conversations with
  | none =>
    refine ⟨?_, fun _ => ⟨[], rfl⟩⟩
    intro ids h
    simp only [chatPartnerIds, Except.ok.injEq] at h
    subst h
    simp
  | some convs =>
    refine ⟨?_, fun h => chatPartnerIds_isOk convs currentUser (h convs rfl)⟩
    intro ids h
    refine ⟨?_, ?_, ?_⟩
    · simp only [chatPartnerIds] at h
      cases hfound : mapE (findPartner currentUser) convs with
      | error e => simp [hfound] at h
      | ok found =>
        simp only [hfound, Except.ok.injEq] at h
        subst h
        exact nodup_newSet _
    · intro cu hcu hmem
      obtain ⟨conv, _, ps, _, hfind, _⟩ := (mem_chatPartnerIds convs currentUser ids h cu._id).mp hmem
      have := List.find?_some hfind
      simp [hcu] at this
    · intro id hmem
      obtain ⟨conv, hconv, ps, hp, hfind, _⟩ := (mem_chatPartnerIds convs currentUser ids h id).mp hmem
      exact ⟨convs, conv, ps, rfl, hconv, hp, List.mem_of_find?_eq_some hfind⟩

/-- The theorem of C8 applied to three conversations of Carol, two of them with Alice. -/
theorem chatPartnerIds_distinct_non_self_witness :
    chatPartnerIds (some [⟨some ["c", "a"]⟩, ⟨some ["a", "c"]⟩, ⟨some ["c", "b"]⟩]) (some carol)
        = .ok ["a", "b"] ∧
      (["a", "b"].Nodup ∧
        (∀ cu, some carol = some cu → cu._id ∉ ["a", "b"]) ∧
        ∀ id ∈ ["a", "b"], ∃ convs conv ps,
          some [(⟨some ["c", "a"]⟩ : Conversation), ⟨some ["a", "c"]⟩, ⟨some ["c", "b"]⟩]
            = some convs ∧ conv ∈ convs ∧ conv.participants = some ps ∧ id ∈ ps) :=
  ⟨by decide,
    (chatPartnerIds_distinct_non_self
      (some [⟨some ["c", "a"]⟩, ⟨some ["a", "c"]⟩, ⟨some ["c", "b"]⟩]) (some carol)).1
      ["a", "b"] (by decide)⟩

/-- C1 as stated fails: with show-all off, an empty search and online-only off,
(1) for the conversation `(a, b)` and the current user `c`, Bob (`b`) is a
participant different from the current user but the result is `[alice]`;
(2) for the conversation `(c, "")` and the current user `c`, the user with the
empty identifier is a participant different from the current user but the result
is empty. -/
theorem contactFilter_chat_history_counterexample :
    (contactFilter asciiToLowerCase (some [alice, bob]) (some [⟨some ["a", "b"]⟩]) (some carol)
        false "" false (some []) [] = .ok [alice] ∧
      bob ∉ [alice] ∧ bob ∈ [alice, bob] ∧
      IsNonSelfParticipant [⟨some ["a", "b"]⟩] carol._id bob._id) ∧
    (contactFilter asciiToLowerCase (some [⟨"", some "Eve", none⟩]) (some [⟨some ["c", ""]⟩])
        (some carol) false "" false (some []) [] = .ok [] ∧
      IsNonSelfParticipant [⟨some ["c", ""]⟩] carol._id "") := by
  decide

/-- C1, amended: with show-all off, an empty search string and online-only off, for
conversations of exactly two participants one of which is the current user, the
result contains a user if and only if the user is in the user list and the user's
identifier is a non-empty participant, different from the current user's identifier,
of at least one conversation. -/
theorem contactFilter_chat_history_only (toLowerCase : String → String) (us : List User)
    (convs : List Conversation) (cu : User) (onlineUsers : Option (List String))
    (prev : List User)
    (htwo : ∀ conv ∈ convs, ∃ a b, conv.participants = some [a, b])
    (hself : ∀ conv ∈ convs, cu._id ∈ conv.participants.getD []) :
    ∃ r, contactFilter toLowerCase (some us) (some convs) (some cu) false "" false
        onlineUsers prev = .ok r ∧
      ∀ u, u ∈ r ↔ u ∈ us ∧ u._id ≠ "" ∧ IsNonSelfParticipant convs cu._id u._id := by
  have hpres : AllHaveParticipants convs := by
    intro conv hconv
    obtain ⟨a, b, hab⟩ := htwo conv hconv
    simp [hab]
  obtain ⟨ids, hids⟩ := chatPartnerIds_isOk convs (some cu) hpres
  refine ⟨us.filter (fun user => ids.contains user._id), ?_, ?_⟩
  · simp only [contactFilter, hids]
    exact filterEffect_chat_history_only toLowerCase us ids onlineUsers prev
  · intro u
    have hmem := mem_chatPartnerIds convs (some cu) ids hids u._id
    have hc : (ids.contains u._id = true) ↔ u._id ∈ ids := by simp
    rw [List.mem_filter, hc, hmem]
    constructor
    · rintro ⟨hu, conv, hconv, ps, hp, hfind, hne⟩
      refine ⟨hu, hne, conv, hconv, ?_, ?_⟩
      · rw [hp]
        exact List.mem_of_find?_eq_some hfind
      · have := List.find?_some hfind
        simpa using this
    · rintro ⟨hu, hne, conv, hconv, hin, hns⟩
      obtain ⟨a, b, hab⟩ := htwo conv hconv
      refine ⟨hu, conv, hconv, [a, b], hab, ?_, hne⟩
      have hcu := hself conv hconv
      rw [hab] at hin hcu
      simp only [Option.getD_some, List.mem_cons, List.mem_singleton, List.not_mem_nil,
        or_false] at hin hcu
      have hdiff : (some u._id != some cu._id) = true := by simp [hns]
      rcases hin with ha | hb
      · subst ha
        simp [List.find?, hdiff]
      · subst hb
        rcases hcu with hca | hcb
        · subst hca
          simp [List.find?, hdiff]
        · exact absurd hcb.symm hns

/-- The theorem of C1 applied to Carol's conversations with Alice and with Bob. -/
theorem contactFilter_chat_history_only_witness :
    ∃ r, contactFilter asciiToLowerCase (some [alice, bob, carol])
        (some [⟨some ["c", "a"]⟩, ⟨some ["b", "c"]⟩]) (some carol) false "" false
        (some ["a"]) [] = .ok r ∧
      ∀ u, u ∈ r ↔ u ∈ [alice, bob, carol] ∧ u._id ≠ "" ∧
        IsNonSelfParticipant [⟨some ["c", "a"]⟩, ⟨some ["b", "c"]⟩] carol._id u._id :=
  contactFilter_chat_history_only asciiToLowerCase [alice, bob, carol]
    [⟨some ["c", "a"]⟩, ⟨some ["b", "c"]⟩] carol (some ["a"]) []
    (by
      intro conv hconv
      simp only [List.mem_cons, List.mem_singleton, List.not_mem_nil, or_false] at hconv
      rcases hconv with h | h
      · exact ⟨"c", "a", by rw [h]⟩
      · exact ⟨"b", "c", by rw [h]⟩)
    (by decide)

/-! ## The filter effect -/

theorem includes_iff_contiguous (s t : String) : includes s t = true ↔ t.data <:+: s.data := by
  simp only [includes, List.any_eq_true, List.mem_tails, List.isPrefixOf_iff_prefix]
  rw [List.infix_iff_prefix_suffix]
  constructor
  · rintro ⟨r, hr, ht⟩
    exact ⟨r, ht, hr⟩
  · rintro ⟨r, ht, hr⟩
    exact ⟨r, hr, ht⟩

theorem basePopulation_sublist (us : List User) (ids : List String) (showAllUsers : Bool) :
    (basePopulation us ids showAllUsers).Sublist us := by
  unfold basePopulation
  cases showAllUsers
  · exact List.filter_sublist us
  · exact List.Sublist.refl us

theorem searchCallback_named (toLowerCase : String → String) (q : String) (showOnlineOnly : Bool)
    (online : List String) (u : User) (h : u.fullName ≠ none) :
    searchCallback toLowerCase q showOnlineOnly (some online) u =
      .ok (matchesSearch toLowerCase q u && (!showOnlineOnly || online.contains u._id)) := by
  cases hn : u.fullName with
  | none => exact absurd hn h
  | some n =>
    simp only [searchCallback, matchesSearch, hn, onlineIncludes]
    cases showOnlineOnly <;> cases includes (toLowerCase n) (toLowerCase q) <;> simp

theorem filterEffect_search (toLowerCase : String → String) (us : List User) (ids : List String)
    (showAllUsers : Bool) (q : String) (showOnlineOnly : Bool) (online : List String)
    (prev : List User) (hq : trim q ≠ "") (hn : AllNamed us) :
    filterEffect toLowerCase (some us) ids showAllUsers q showOnlineOnly (some online) prev =
      .ok ((basePopulation us ids showAllUsers).filter
        (fun u => matchesSearch toLowerCase q u && (!showOnlineOnly || online.contains u._id))) := by
  simp only [filterEffect, hq, if_false]
  apply filterE_eq_ok_filter
  intro u hu
  exact searchCallback_named toLowerCase q showOnlineOnly online u
    (hn u ((basePopulation_sublist us ids showAllUsers).subset hu))

theorem filterEffect_blank (toLowerCase : String → String) (us : List User) (ids : List String)
    (showAllUsers : Bool) (q : String) (showOnlineOnly : Bool) (online : List String)
    (prev : List User) (hq : trim q = "") :
    filterEffect toLowerCase (some us) ids showAllUsers q showOnlineOnly (some online) prev =
      .ok (if showOnlineOnly then
          (basePopulation us ids showAllUsers).filter (fun u => online.contains u._id)
        else basePopulation us ids showAllUsers) := by
  simp only [filterEffect, hq, if_true]
  cases showOnlineOnly
  · rfl
  · simp only [if_true]
    apply filterE_eq_ok_filter
    intro u _
    rfl

theorem filterEffect_sublist (toLowerCase : String → String) (us : List User) (ids : List String)
    (showAllUsers : Bool) (q : String) (showOnlineOnly : Bool)
    (onlineUsers : Option (List String)) (prev r : List User)
    (h : filterEffect toLowerCase (some us) ids showAllUsers q showOnlineOnly onlineUsers prev
      = .ok r) :
    r.Sublist (basePopulation us ids showAllUsers) := by
  simp only [filterEffect] at h
  by_cases hq : trim q = ""
  · simp only [hq, if_true] at h
    cases showOnlineOnly
    · simp only [Bool.false_eq_true, if_false, Except.ok.injEq] at h
      rw [← h]
    · simp only [if_true] at h
      exact filterE_sublist _ _ _ h
  · simp only [hq, if_false] at h
    exact filterE_sublist _ _ _ h

theorem filterEffect_isOk (toLowerCase : String → String) (us : List User) (ids : List String)
    (showAllUsers : Bool) (q : String) (showOnlineOnly : Bool) (online : List String)
    (prev : List User) (hn : AllNamed us) :
    ∃ r, filterEffect toLowerCase (some us) ids showAllUsers q showOnlineOnly (some online) prev
      = .ok r := by
  by_cases hq : trim q = ""
  · exact ⟨_, filterEffect_blank toLowerCase us ids showAllUsers q showOnlineOnly online prev hq⟩
  · exact ⟨_, filterEffect_search toLowerCase us ids showAllUsers q showOnlineOnly online prev
      hq hn⟩

/-- C2 as stated fails: the search string `" "` is non-empty and online-only is set,
yet the result over all users is `[alice]`, the online users, although Alice's name
does not contain a space: the users satisfying both tests are none. -/
theorem filterEffect_conjunctive_counterexample :
    " " ≠ "" ∧
    filterEffect asciiToLowerCase (some [alice, bob]) [] true " " true (some ["a"]) []
      = .ok [alice] ∧
    (basePopulation [alice, bob] [] true).filter
      (fun u => matchesSearch asciiToLowerCase " " u && ["a"].contains u._id) = [] := by
  decide

/-- C2, amended: for a search string that is non-empty after trimming white space,
with online-only set and every user named, the result is exactly the users of the
base population that satisfy both the lower-cased substring match on `fullName` and
membership of their identifier in `onlineUsers`; it is the search-only result
restricted to the members of the online-only result, and each of its members is in
both. -/
theorem filterEffect_conjunctive (toLowerCase : String → String) (us : List User)
    (ids : List String) (showAllUsers : Bool) (q : String) (online : List String)
    (prev : List User) (hq : trim q ≠ "") (hn : AllNamed us) :
    filterEffect toLowerCase (some us) ids showAllUsers q true (some online) prev =
      .ok ((basePopulation us ids showAllUsers).filter
        (fun u => matchesSearch toLowerCase q u && online.contains u._id)) ∧
    ∃ searchOnly onlineOnly,
      filterEffect toLowerCase (some us) ids showAllUsers q false (some online) prev
        = .ok searchOnly ∧
      filterEffect toLowerCase (some us) ids showAllUsers "" true (some online) prev
        = .ok onlineOnly ∧
      filterEffect toLowerCase (some us) ids showAllUsers q true (some online) prev
        = .ok (searchOnly.filter (fun u => onlineOnly.contains u)) ∧
      ∀ u, u ∈ searchOnly.filter (fun u => onlineOnly.contains u) ↔
        u ∈ searchOnly ∧ u ∈ onlineOnly := by
  have hboth := filterEffect_search toLowerCase us ids showAllUsers q true online prev hq hn
  have hsearch := filterEffect_search toLowerCase us ids showAllUsers q false online prev hq hn
  have honline := filterEffect_blank toLowerCase us ids showAllUsers "" true online prev rfl
  simp only [Bool.not_true, Bool.false_or, Bool.not_false, Bool.true_or, Bool.and_true,
    if_true] at hboth hsearch honline
  refine ⟨hboth, _, _, hsearch, honline, ?_, ?_⟩
  · rw [hboth, List.filter_filter]
    congr 1
    apply List.filter_congr
    intro u hu
    cases hm : matchesSearch toLowerCase q u
    · simp
    · have : (List.filter (fun u => online.contains u._id)
          (basePopulation us ids showAllUsers)).contains u = online.contains u._id := by
        cases ho : online.contains u._id
        · rw [Bool.eq_false_iff]
          intro hc
          have hmem : u ∈ List.filter (fun u => online.contains u._id)
              (basePopulation us ids showAllUsers) := by simpa using hc
          rw [List.mem_filter] at hmem
          rw [ho] at hmem
          exact Bool.false_ne_true hmem.2
        · have hmem : u ∈ List.filter (fun u => online.contains u._id)
              (basePopulation us ids showAllUsers) := List.mem_filter.mpr ⟨hu, ho⟩
          simpa using hmem
      simp only [this, Bool.true_and, Bool.and_true]
  · intro u
    rw [List.mem_filter]
    constructor <;> rintro ⟨h1, h2⟩ <;> exact ⟨h1, by simpa using h2⟩

/-- The theorem of C2 applied to the search `"li"` with Alice and Carol online. -/
theorem filterEffect_conjunctive_witness :
    filterEffect asciiToLowerCase (some [alice, bob, carol]) [] true "LI" true
        (some ["a", "c"]) [] =
      .ok ((basePopulation [alice, bob, carol] [] true).filter
        (fun u => matchesSearch asciiToLowerCase "LI" u && ["a", "c"].contains u._id)) ∧
    ∃ searchOnly onlineOnly,
      filterEffect asciiToLowerCase (some [alice, bob, carol]) [] true "LI" false
        (some ["a", "c"]) [] = .ok searchOnly ∧
      filterEffect asciiToLowerCase (some [alice, bob, carol]) [] true "" true
        (some ["a", "c"]) [] = .ok onlineOnly ∧
      filterEffect asciiToLowerCase (some [alice, bob, carol]) [] true "LI" true
        (some ["a", "c"]) [] = .ok (searchOnly.filter (fun u => onlineOnly.contains u)) ∧
      ∀ u, u ∈ searchOnly.filter (fun u => onlineOnly.contains u) ↔
        u ∈ searchOnly ∧ u ∈ onlineOnly :=
  filterEffect_conjunctive asciiToLowerCase [alice, bob, carol] [] true "LI" ["a", "c"] []
    (by decide) (by unfold AllNamed; decide)

/-- C3: for every search string and every setting of the two toggles, whenever the
effect produces a result it is a sublist of the base population selected by the
show-all toggle (all users when it is on, the users whose identifier is in
`chatPartnerIds` when it is off), which is a sublist of the user list; and the
effect produces a result whenever every user is named and `onlineUsers` is present. -/
theorem filterEffect_sublist_of_base (toLowerCase : String → String) (us : List User)
    (ids : List String) (showAllUsers : Bool) (q : String) (showOnlineOnly : Bool)
    (onlineUsers : Option (List String)) (prev : List User) :
    (∀ r, filterEffect toLowerCase (some us) ids showAllUsers q showOnlineOnly onlineUsers prev
        = .ok r →
      r.Sublist (basePopulation us ids showAllUsers) ∧
      (basePopulation us ids showAllUsers).Sublist us ∧ r.Sublist us) ∧
    basePopulation us ids true = us ∧
    basePopulation us ids false = us.filter (fun user => ids.contains user._id) ∧
    (AllNamed us → ∀ online, onlineUsers = some online →
      ∃ r, filterEffect toLowerCase (some us) ids showAllUsers q showOnlineOnly onlineUsers prev
        = .ok r) := by
  refine ⟨?_, rfl, rfl, ?_⟩
  · intro r h
    have h1 := filterEffect_sublist toLowerCase us ids showAllUsers q showOnlineOnly
      onlineUsers prev r h
    have h2 := basePopulation_sublist us ids showAllUsers
    exact ⟨h1, h2, h1.trans h2⟩
  · intro hn online ho
    subst ho
    exact filterEffect_isOk toLowerCase us ids showAllUsers q showOnlineOnly online prev hn

/-- The theorem of C3 applied to a search for `"o"` among Carol's chat partners. -/
theorem filterEffect_sublist_of_base_witness :
    filterEffect asciiToLowerCase (some [alice, bob, carol]) ["b", "a"] false "o" true
        (some ["b"]) [] = .ok [bob] ∧
      ([bob].Sublist (basePopulation [alice, bob, carol] ["b", "a"] false) ∧
        (basePopulation [alice, bob, carol] ["b", "a"] false).Sublist [alice, bob, carol] ∧
        [bob].Sublist [alice, bob, carol]) :=
  ⟨by decide,
    (filterEffect_sublist_of_base asciiToLowerCase [alice, bob, carol] ["b", "a"] false "o" true
      (some ["b"]) []).1 [bob] (by decide)⟩

/-- C4 as stated fails: the search string of two spaces is non-empty, yet the result
over all users is every user, and neither name contains two spaces. -/
theorem filterEffect_narrows_counterexample :
    "  " ≠ "" ∧
    filterEffect asciiToLowerCase (some [bob, carol]) [] true "  " false (some []) []
      = .ok [bob, carol] ∧
    matchesSearch asciiToLowerCase "  " bob = false ∧
    matchesSearch asciiToLowerCase "  " carol = false := by
  decide

/-- C4, amended: for every search string that is non-empty after trimming white
space, every user in a result of the effect has a `fullName` whose lower-casing
contains the lower-cased search string as a contiguous run; and the effect produces
a result whenever every user is named and `onlineUsers` is present. -/
theorem filterEffect_narrows (toLowerCase : String → String) (us : List User)
    (ids : List String) (showAllUsers : Bool) (q : String) (showOnlineOnly : Bool)
    (onlineUsers : Option (List String)) (prev : List User) (hq : trim q ≠ "") :
    (∀ r, filterEffect toLowerCase (some us) ids showAllUsers q showOnlineOnly onlineUsers prev
        = .ok r →
      ∀ u ∈ r, ∃ n, u.fullName = some n ∧
        includes (toLowerCase n) (toLowerCase q) = true ∧
        (toLowerCase q).data <:+: (toLowerCase n).data) ∧
    (AllNamed us → ∀ online, onlineUsers = some online →
      ∃ r, filterEffect toLowerCase (some us) ids showAllUsers q showOnlineOnly onlineUsers prev
        = .ok r) := by
  constructor
  · intro r h u hu
    simp only [filterEffect, hq, if_false] at h
    have hcb := filterE_mem _ _ _ h u hu
    cases hn : u.fullName with
    | none => simp [searchCallback, hn] at hcb
    | some n =>
      have hinc : includes (toLowerCase n) (toLowerCase q) = true := by
        cases hi : includes (toLowerCase n) (toLowerCase q)
        · cases showOnlineOnly <;> simp [searchCallback, hn, hi] at hcb
        · rfl
      exact ⟨n, rfl, hinc, (includes_iff_contiguous _ _).mp hinc⟩
  · intro hn online ho
    subst ho
    exact filterEffect_isOk toLowerCase us ids showAllUsers q showOnlineOnly online prev hn

/-- The theorem of C4 applied to the search `"AR"`, which keeps Carol. -/
theorem filterEffect_narrows_witness :
    trim "AR" ≠ "" ∧
    filterEffect asciiToLowerCase (some [alice, bob, carol]) [] true "AR" false (some []) []
      = .ok [carol] ∧
    ∀ u ∈ [carol], ∃ n, u.fullName = some n ∧
      includes (asciiToLowerCase n) (asciiToLowerCase "AR") = true ∧
      (asciiToLowerCase "AR").data <:+: (asciiToLowerCase n).data :=
  ⟨by decide, by decide,
    (filterEffect_narrows asciiToLowerCase [alice, bob, carol] [] true "AR" false (some []) []
      (by decide)).1 [carol] (by decide)⟩

/-- C6: with the search string `""`, for every user list, partner set and online
list, the result is the base population when online-only is off and exactly the
users of the base population whose identifier is in `onlineUsers` when it is on.
With users Alice (online) and Bob (offline), show-all off and online-only on, the
conversation `(self, a)` gives `[alice]` and the conversation `(self, b)` gives `[]`. -/
theorem filterEffect_empty_search (toLowerCase : String → String) (us : List User)
    (ids : List String) (showAllUsers : Bool) (online : List String) (prev : List User) :
    filterEffect toLowerCase (some us) ids showAllUsers "" false (some online) prev =
      .ok (basePopulation us ids showAllUsers) ∧
    filterEffect toLowerCase (some us) ids showAllUsers "" true (some online) prev =
      .ok ((basePopulation us ids showAllUsers).filter (fun u => online.contains u._id)) ∧
    contactFilter toLowerCase (some [alice, bob]) (some [⟨some ["c", "a"]⟩]) (some carol)
      false "" true (some ["a"]) prev = .ok [alice] ∧
    contactFilter toLowerCase (some [alice, bob]) (some [⟨some ["c", "b"]⟩]) (some carol)
      false "" true (some ["a"]) prev = .ok [] := by
  refine ⟨?_, ?_, ?_, ?_⟩
  · exact filterEffect_blank toLowerCase us ids showAllUsers "" false online prev rfl
  · exact filterEffect_blank toLowerCase us ids showAllUsers "" true online prev rfl
  · have hids : chatPartnerIds (some [⟨some ["c", "a"]⟩]) (some carol) = .ok ["a"] := by decide
    simp only [contactFilter, hids]
    rw [filterEffect_blank toLowerCase [alice, bob] ["a"] false "" true ["a"] prev rfl]
    decide
  · have hids : chatPartnerIds (some [⟨some ["c", "b"]⟩]) (some carol) = .ok ["b"] := by decide
    simp only [contactFilter, hids]
    rw [filterEffect_blank toLowerCase [alice, bob] ["b"] false "" true ["a"] prev rfl]
    decide

/-! ## Lower-casing -/

theorem dropWhile_all {α : Type} (p : α → Bool) :
    ∀ l : List α, (∀ x ∈ l.dropWhile p, p x = true) ↔ ∀ x ∈ l, p x = true
  | [] => by simp
  | a :: as => by
    have ih := dropWhile_all p as
    cases hpa : p a
    · simp [List.dropWhile, hpa]
    · simp [List.dropWhile, hpa, ih]

theorem trim_eq_empty_iff (s : String) :
    trim s = "" ↔ ∀ c ∈ s.data, isWhiteSpace c = true := by
  unfold trim
  rw [← dropWhile_all isWhiteSpace s.data]
  constructor
  · intro h
    have h' : ((s.data.dropWhile isWhiteSpace).reverse.dropWhile isWhiteSpace).reverse = [] := by
      have := congrArg String.data h
      simpa using this
    rw [List.reverse_eq_nil_iff, List.dropWhile_eq_nil_iff] at h'
    intro c hc
    exact h' c (List.mem_reverse.mpr hc)
  · intro h
    have h' : (s.data.dropWhile isWhiteSpace).reverse.dropWhile isWhiteSpace = [] := by
      rw [List.dropWhile_eq_nil_iff]
      intro c hc
      exact h c (List.mem_reverse.mp hc)
    rw [h']
    rfl

theorem isWhiteSpace_toLower (c : Char) : isWhiteSpace c.toLower = isWhiteSpace c := by
  by_cases h : c.toNat ≥ 65 ∧ c.toNat ≤ 90
  · obtain ⟨h1, h2⟩ := h
    rw [← Char.ofNat_toNat c]
    generalize c.toNat = n at h1 h2
    interval_cases n <;> rfl
  · have hl : c.toLower = c := by
      simp only [Char.toLower, h, if_false]
    rw [hl]

/-- ASCII lower-casing neither makes a string blank nor makes a blank string
non-blank. -/
theorem trim_asciiToLowerCase (s : String) :
    trim (asciiToLowerCase s) = "" ↔ trim s = "" := by
  rw [trim_eq_empty_iff, trim_eq_empty_iff]
  simp only [asciiToLowerCase, List.mem_map, forall_exists_index, and_imp,
    forall_apply_eq_imp_iff₂, isWhiteSpace_toLower]

theorem searchCallback_congr_query (toLowerCase : String → String) (q₁ q₂ : String)
    (showOnlineOnly : Bool) (onlineUsers : Option (List String)) (u : User)
    (h : toLowerCase q₁ = toLowerCase q₂) :
    searchCallback toLowerCase q₁ showOnlineOnly onlineUsers u =
      searchCallback toLowerCase q₂ showOnlineOnly onlineUsers u := by
  simp only [searchCallback, h]

theorem searchCallback_congr_name (toLowerCase : String → String) (q : String)
    (showOnlineOnly : Bool) (onlineUsers : Option (List String)) (u v : User)
    (hid : v._id = u._id)
    (hname : v.fullName.map toLowerCase = u.fullName.map toLowerCase) :
    searchCallback toLowerCase q showOnlineOnly onlineUsers v =
      searchCallback toLowerCase q showOnlineOnly onlineUsers u := by
  cases hv : v.fullName with
  | none =>
    cases hu : u.fullName with
    | none => simp only [searchCallback, hv, hu]
    | some n => simp [hv, hu] at hname
  | some m =>
    cases hu : u.fullName with
    | none => simp [hv, hu] at hname
    | some n =>
      have hmn : toLowerCase m = toLowerCase n := by simpa [hv, hu] using hname
      simp only [searchCallback, hv, hu, hmn, hid]

theorem basePopulation_map (rename : User → User) (hid : ∀ u, (rename u)._id = u._id)
    (us : List User) (ids : List String) (showAllUsers : Bool) :
    basePopulation (us.map rename) ids showAllUsers =
      (basePopulation us ids showAllUsers).map rename := by
  cases showAllUsers
  · simp only [basePopulation, Bool.false_eq_true, if_false, List.filter_map]
    congr 1
    apply List.filter_congr
    intro u _
    simp only [Function.comp, hid]
  · rfl

/-- C5: for a lower-casing function that neither makes a string blank nor makes a
blank string non-blank (as `toLowerCase` does), two search strings that are equal
after lower-casing give the same result of the effect in every state; and renaming
users so that each keeps its identifier and the lower-casing of its `fullName`
renames the result accordingly: the same positions of the user list are kept. -/
theorem filterEffect_case_insensitive (toLowerCase : String → String)
    (hblank : ∀ s, trim (toLowerCase s) = "" ↔ trim s = "") :
    (∀ (users : Option (List User)) (ids : List String) (showAllUsers : Bool) (q₁ q₂ : String)
        (showOnlineOnly : Bool) (onlineUsers : Option (List String)) (prev : List User),
      toLowerCase q₁ = toLowerCase q₂ →
      filterEffect toLowerCase users ids showAllUsers q₁ showOnlineOnly onlineUsers prev =
        filterEffect toLowerCase users ids showAllUsers q₂ showOnlineOnly onlineUsers prev) ∧
    (∀ (rename : User → User),
      (∀ u, (rename u)._id = u._id ∧
        (rename u).fullName.map toLowerCase = u.fullName.map toLowerCase) →
      ∀ (us : List User) (ids : List String) (showAllUsers : Bool) (q : String)
        (showOnlineOnly : Bool) (onlineUsers : Option (List String)) (prev : List User),
      filterEffect toLowerCase (some (us.map rename)) ids showAllUsers q showOnlineOnly
          onlineUsers prev =
        (filterEffect toLowerCase (some us) ids showAllUsers q showOnlineOnly
          onlineUsers prev).map (List.map rename)) := by
  constructor
  · intro users ids showAllUsers q₁ q₂ showOnlineOnly onlineUsers prev hq
    have ht : trim q₁ = "" ↔ trim q₂ = "" := by
      rw [← hblank q₁, ← hblank q₂, hq]
    cases users with
    | none => rfl
    | some us =>
      by_cases h1 : trim q₁ = ""
      · have h2 := ht.mp h1
        simp [filterEffect, h1, h2]
      · have h2 : ¬ trim q₂ = "" := fun h => h1 (ht.mpr h)
        simp only [filterEffect, h1, h2, if_false]
        apply filterE_congr
        intro u _
        exact searchCallback_congr_query toLowerCase q₁ q₂ showOnlineOnly onlineUsers u hq
  · intro rename hren us ids showAllUsers q showOnlineOnly onlineUsers prev
    have hbase := basePopulation_map rename (fun u => (hren u).1) us ids showAllUsers
    by_cases hq : trim q = ""
    · simp only [filterEffect, hq, if_true, hbase]
      cases showOnlineOnly
      · rfl
      · simp only [if_true, filterE_map]
        congr 1
        apply filterE_congr
        intro u _
        rw [(hren u).1]
    · simp only [filterEffect, hq, if_false, hbase, filterE_map]
      congr 1
      apply filterE_congr
      intro u _
      exact searchCallback_congr_name toLowerCase q showOnlineOnly onlineUsers u (rename u)
        (hren u).1 (hren u).2

/-- The theorem of C5 applied to ASCII lower-casing: the searches `"AL"` and `"al"`
give the same result, and so do the names `"Alice"` and `"ALICE"`. -/
theorem filterEffect_case_insensitive_witness :
    filterEffect asciiToLowerCase (some [alice, bob]) [] true "AL" false (some []) [] =
      filterEffect asciiToLowerCase (some [alice, bob]) [] true "al" false (some []) [] ∧
    filterEffect asciiToLowerCase (some ([alice, bob].map upperCaseAlice)) [] true "al" false
        (some []) [] =
      (filterEffect asciiToLowerCase (some [alice, bob]) [] true "al" false (some []) []).map
        (List.map upperCaseAlice) :=
  ⟨(filterEffect_case_insensitive asciiToLowerCase trim_asciiToLowerCase).1
      (some [alice, bob]) [] true "AL" "al" false (some []) [] (by decide),
    (filterEffect_case_insensitive asciiToLowerCase trim_asciiToLowerCase).2
      upperCaseAlice
      (by
        intro u
        by_cases hu : u = alice
        · subst hu
          exact ⟨by decide, by decide⟩
        · simp [upperCaseAlice, hu])
      [alice, bob] [] true "al" false (some []) []⟩

/-! ## Absent inputs -/

/-- C7 as stated fails: an absent `onlineUsers` makes `onlineUserCount` raise, and
makes the effect raise once online-only is on; an absent `participants` makes
`chatPartnerIds` raise; an absent `fullName` makes the effect raise under a search;
and with `users` absent the effect keeps the previous result instead of an empty one. -/
theorem absent_inputs_counterexample :
    onlineUserCount none = .error .typeError ∧
    filterEffect asciiToLowerCase (some [alice]) [] true "" true none [] = .error .typeError ∧
    chatPartnerIds (some [⟨none⟩]) (some carol) = .error .typeError ∧
    filterEffect asciiToLowerCase (some [⟨"d", none, none⟩]) [] true "a" false (some []) []
      = .error .typeError ∧
    filterEffect asciiToLowerCase none [] true "" false (some []) [alice] = .ok [alice] := by
  decide

/-- C7, amended: when `onlineUsers`, every conversation's `participants` and every
user's `fullName` are present, then whether or not `users`, `conversations` and
`currentUser` are present, `chatPartnerIds`, the filter and `onlineUserCount` raise
no error; absent conversations are treated as the empty list, and with `users`
absent the displayed list keeps its previous value (empty when it was empty). -/
theorem absent_inputs_guarded (toLowerCase : String → String) (users : Option (List User))
    (conversations : Option (List Conversation)) (currentUser : Option User)
    (showAllUsers : Bool) (q : String) (showOnlineOnly : Bool) (online : List String)
    (prev : List User)
    (hp : ∀ convs, conversations = some convs → AllHaveParticipants convs)
    (hn : ∀ us, users = some us → AllNamed us) :
    (∃ ids, chatPartnerIds conversations currentUser = .ok ids ∧
      (conversations = none → ids = [])) ∧
    chatPartnerIds none currentUser = chatPartnerIds (some []) currentUser ∧
    (∃ r, contactFilter toLowerCase users conversations currentUser showAllUsers q
        showOnlineOnly (some online) prev = .ok r ∧
      (users = none → r = prev)) ∧
    onlineUserCount (some online) = .ok ((online.length : Int) - 1) := by
  have hids : ∃ ids, chatPartnerIds conversations currentUser = .ok ids ∧
      (conversations = none → ids = []) := by
    cases conversations with
    | none => exact ⟨[], rfl, fun _ => rfl⟩
    | some convs =>
      obtain ⟨ids, h⟩ := chatPartnerIds_isOk convs currentUser (hp convs rfl)
      exact ⟨ids, h, fun hc => by cases hc⟩
  refine ⟨hids, rfl, ?_, rfl⟩
  obtain ⟨ids, hok, _⟩ := hids
  cases users with
  | none => exact ⟨prev, by simp only [contactFilter, hok, filterEffect], fun _ => rfl⟩
  | some us =>
    obtain ⟨r, hr⟩ := filterEffect_isOk toLowerCase us ids showAllUsers q showOnlineOnly online
      prev (hn us rfl)
    exact ⟨r, by simp only [contactFilter, hok, hr], fun hc => by cases hc⟩

/-- The theorem of C7 applied with `conversations` and `currentUser` absent and a
search for `"a"` among the online users. -/
theorem absent_inputs_guarded_witness :
    (∃ ids, chatPartnerIds none none = .ok ids ∧
      ((none : Option (List Conversation)) = none → ids = [])) ∧
    chatPartnerIds none none = chatPartnerIds (some []) none ∧
    (∃ r, contactFilter asciiToLowerCase (some [alice, bob]) none none true "a" true
        (some ["a"]) [] = .ok r ∧
      (some [alice, bob] = none → r = [])) ∧
    onlineUserCount (some ["a"]) = .ok ((["a"].length : Int) - 1) :=
  absent_inputs_guarded asciiToLowerCase (some [alice, bob]) none none true "a" true ["a"] []
    (by intro convs h; cases h)
    (by
      intro us h
      cases h
      decide)

/-! ## The online badge -/

theorem length_filter_ne {l : List String} (hl : l.Nodup) (a : String) :
    ((l.filter (fun id => some id != some a)).length : Int) =
      if a ∈ l then (l.length : Int) - 1 else l.length := by
  induction l with
  | nil => simp
  | cons x xs ih =>
    have hx : x ∉ xs := (List.nodup_cons.mp hl).1
    have ih' := ih (List.nodup_cons.mp hl).2
    by_cases hxa : x = a
    · subst hxa
      have hkeep : ∀ y ∈ xs, (some y != some x) = true := by
        intro y hy
        have : y ≠ x := fun h => hx (h ▸ hy)
        simp [this]
      have hdrop : (some x != some x) = false := by simp
      rw [List.filter_cons, hdrop]
      simp only [Bool.false_eq_true, if_false, List.mem_cons, true_or, if_true,
        List.length_cons]
      rw [List.filter_eq_self.mpr hkeep]
      push_cast
      ring
    · have hkeep : (some x != some a) = true := by simp [hxa]
      have hmem : a ∈ x :: xs ↔ a ∈ xs := by
        simp only [List.mem_cons]
        constructor
        · rintro (h | h)
          · exact absurd h.symm hxa
          · exact h
        · exact Or.inr
      rw [List.filter_cons, hkeep]
      simp only [if_true, List.length_cons, hmem]
      push_cast
      rw [ih']
      split <;> ring

/-- C9: `onlineUserCount` is `onlineUsers.length - 1` whatever the list holds (`-1`
for the empty list). For a duplicate-free list it equals the number of online
identifiers other than the current user's if and only if the current user's
identifier is in the list, and is one less than that number otherwise; the badge is
shown exactly when the list has at least two entries. -/
theorem onlineUserCount_minus_one (online : List String) (currentUser : Option User) :
    onlineUserCount (some online) = .ok ((online.length : Int) - 1) ∧
    onlineUserCount (some []) = .ok (-1) ∧
    (online.Nodup →
      ((online.length : Int) - 1 =
          ((online.filter (fun id => some id != currentUser.map User._id)).length : Int) ↔
        ∃ cu, currentUser = some cu ∧ cu._id ∈ online)) ∧
    (online.Nodup → (¬ ∃ cu, currentUser = some cu ∧ cu._id ∈ online) →
      (online.length : Int) - 1 =
        ((online.filter (fun id => some id != currentUser.map User._id)).length : Int) - 1) ∧
    (showOnlineBadge ((online.length : Int) - 1) = true ↔ 2 ≤ online.length) := by
  have hothers : online.Nodup →
      ((online.filter (fun id => some id != currentUser.map User._id)).length : Int) =
        if (∃ cu, currentUser = some cu ∧ cu._id ∈ online) then (online.length : Int) - 1
        else online.length := by
    intro hnd
    cases currentUser with
    | none => simp
    | some cu =>
      simp only [Option.map_some', length_filter_ne hnd cu._id, Option.some.injEq,
        exists_eq_left']
  refine ⟨rfl, rfl, ?_, ?_, ?_⟩
  · intro hnd
    rw [hothers hnd]
    by_cases h : ∃ cu, currentUser = some cu ∧ cu._id ∈ online
    · simp [h]
    · simp only [h, if_false, iff_false]
      omega
  · intro hnd h
    rw [hothers hnd]
    simp [h]
  · simp only [showOnlineBadge, decide_eq_true_eq]
    omega

/-- The theorem of C9 applied to the online list `["a", "b"]` without Carol. -/
theorem onlineUserCount_minus_one_witness :
    ["a", "b"].Nodup ∧ (¬ ∃ cu, some carol = some cu ∧ cu._id ∈ ["a", "b"]) ∧
    ((["a", "b"].length : Int) - 1 =
      ((["a", "b"].filter (fun id => some id != (some carol).map User._id)).length : Int) - 1) :=
  ⟨by decide, by simp [carol],
    (onlineUserCount_minus_one ["a", "b"] (some carol)).2.2.2.1 (by decide) (by simp [carol])⟩

/-! ## The empty-state message -/

/-- C10: when the displayed list is the filter's result for the current inputs and
the list pane shows the message "No chat history found", then the list is empty, the
search string is empty, both toggles are off and no user of the user list has an
identifier in `chatPartnerIds`; when it shows "No users available", then the list is
empty, the search string is empty, online-only is off, show-all is on and the user
list is empty. -/
theorem emptyState_truthful (toLowerCase : String → String) (users : Option (List User))
    (conversations : Option (List Conversation)) (currentUser : Option User)
    (showAllUsers : Bool) (q : String) (showOnlineOnly : Bool)
    (onlineUsers : Option (List String)) (prev r : List User)
    (hr : contactFilter toLowerCase users conversations currentUser showAllUsers q
      showOnlineOnly onlineUsers prev = .ok r) :
    (listPane r q showOnlineOnly showAllUsers = .message "No chat history found" →
      r = [] ∧ q = "" ∧ showOnlineOnly = false ∧ showAllUsers = false ∧
      ∃ ids, chatPartnerIds conversations currentUser = .ok ids ∧
        ∀ u ∈ users.getD [], u._id ∉ ids) ∧
    (listPane r q showOnlineOnly showAllUsers = .message "No users available" →
      r = [] ∧ q = "" ∧ showOnlineOnly = false ∧ showAllUsers = true ∧
      users.getD [] = []) := by
  obtain ⟨ids, hids, hr⟩ : ∃ ids, chatPartnerIds conversations currentUser = .ok ids ∧
      filterEffect toLowerCase users ids showAllUsers q showOnlineOnly onlineUsers prev
        = .ok r := by
    unfold contactFilter at hr
    cases hc : chatPartnerIds conversations currentUser with
    | error e => simp [hc] at hr
    | ok ids => exact ⟨ids, rfl, by simpa [hc] using hr⟩
  have hmsg : ∀ m, listPane r q showOnlineOnly showAllUsers = .message m →
      r = [] ∧ emptyStateMessage q showOnlineOnly showAllUsers = m := by
    intro m hm
    unfold listPane at hm
    by_cases hlen : r.length > 0
    · simp [hlen] at hm
    · simp only [hlen, if_false, ListPane.message.injEq] at hm
      exact ⟨List.length_eq_zero.mp (by omega), hm⟩
  constructor
  · intro hm
    obtain ⟨hnil, hm⟩ := hmsg _ hm
    have hflags : q = "" ∧ showOnlineOnly = false ∧ showAllUsers = false := by
      unfold emptyStateMessage at hm
      by_cases hq : truthy q = true
      · simp only [hq, if_true] at hm
        exact absurd hm (by decide)
      · have hq' : q = "" := by simpa [truthy] using hq
        cases showOnlineOnly
        · cases showAllUsers
          · exact ⟨hq', rfl, rfl⟩
          · simp only [hq, Bool.false_eq_true, if_false, if_true] at hm
            exact absurd hm (by decide)
        · simp only [hq, if_false, if_true] at hm
          exact absurd hm (by decide)
    obtain ⟨hq, ho, ha⟩ := hflags
    subst hq ho ha hnil
    refine ⟨rfl, rfl, rfl, rfl, ids, hids, ?_⟩
    cases users with
    | none => simp
    | some us =>
      rw [filterEffect_chat_history_only] at hr
      have hnone : us.filter (fun user => ids.contains user._id) = [] := Except.ok.inj hr
      intro u hu hmem
      have : u ∈ us.filter (fun user => ids.contains user._id) :=
        List.mem_filter.mpr ⟨hu, by simpa using hmem⟩
      rw [hnone] at this
      cases this
  · intro hm
    obtain ⟨hnil, hm⟩ := hmsg _ hm
    have hflags : q = "" ∧ showOnlineOnly = false ∧ showAllUsers = true := by
      unfold emptyStateMessage at hm
      by_cases hq : truthy q = true
      · simp only [hq, if_true] at hm
        exact absurd hm (by decide)
      · have hq' : q = "" := by simpa [truthy] using hq
        cases showOnlineOnly
        · cases showAllUsers
          · simp only [hq, Bool.false_eq_true, if_false] at hm
            exact absurd hm (by decide)
          · exact ⟨hq', rfl, rfl⟩
        · simp only [hq, if_false, if_true] at hm
          exact absurd hm (by decide)
    obtain ⟨hq, ho, ha⟩ := hflags
    subst hq ho ha hnil
    refine ⟨rfl, rfl, rfl, rfl, ?_⟩
    cases users with
    | none => rfl
    | some us =>
      have ht : trim "" = "" := rfl
      simp only [filterEffect, basePopulation, ht, if_true, Bool.false_eq_true, if_false,
        Except.ok.injEq] at hr
      simpa using hr

/-- The theorem of C10 applied to Carol, whose only conversation is with a user that
is not in the user list, show-all off. -/
theorem emptyState_truthful_witness :
    contactFilter asciiToLowerCase (some [alice, bob]) (some [⟨some ["c", "d"]⟩]) (some carol)
      false "" false (some ["a"]) [] = .ok [] ∧
    listPane [] "" false false = .message "No chat history found" ∧
    ∃ ids, chatPartnerIds (some [⟨some ["c", "d"]⟩]) (some carol) = .ok ids ∧
      ∀ u ∈ (some [alice, bob]).getD [], u._id ∉ ids :=
  ⟨by decide, by decide,
    ((emptyState_truthful asciiToLowerCase (some [alice, bob]) (some [⟨some ["c", "d"]⟩])
      (some carol) false "" false (some ["a"]) [] [] (by decide)).1 (by decide)).2.2.2.2⟩

end Sidebar
